import Mathlib

/-!
Verification of the elevator demand / parking-strategy codebase.

Shallow embedding conventions:
* Python floats are modelled by `ℚ` (all arithmetic relevant to the claims is
  exact: sums, means, linear interpolation, comparisons of decimal literals);
  `NaN` results are modelled by `none : Option ℚ`.
* Python ints are `ℤ` (floors) or `ℕ` (counts, indices).
* Fallible code (explicit `raise`) returns `Except String _`; code paths with
  no `raise` are total functions.
-/

set_option maxRecDepth 4000
set_option linter.unusedVariables false

namespace ElevatorSim

/-- The three parking zones, in the order of the Python list `ZONES`. -/
inductive Zone where
  | lobbyZ
  | midZ
  | upperZ
deriving DecidableEq, Repr

open Zone

/-- `ZONES` as a list, in source order. -/
def zonesList : List Zone := [lobbyZ, midZ, upperZ]

/-- Position of a zone in `ZONES` (Python `ZONES.index`). -/
def zoneIdx : Zone → ℕ
  | lobbyZ => 0
  | midZ => 1
  | upperZ => 2

/-- Sum of a per-zone table over the three zones. -/
def zoneSum (f : Zone → ℕ) : ℕ := f lobbyZ + f midZ + f upperZ

/-- Sum of a per-zone rational table over the three zones. -/
def zoneSumQ (f : Zone → ℚ) : ℚ := f lobbyZ + f midZ + f upperZ

/-! ## task3_parking.py (szeto model) -/

/-- The base templates of `_proportions_from_state` (decimal literals as exact
rationals), including the `templates.get(state, templates['Afternoon Mixed'])`
default for unknown states. -/
def template (state : String) : Zone → ℚ :=
  if state = "Morning Up-Peak" then fun z => match z with
    | lobbyZ => 7/10 | midZ => 1/4 | upperZ => 1/20
  else if state = "Lunch Down-Peak" then fun z => match z with
    | lobbyZ => 1/5 | midZ => 3/5 | upperZ => 1/5
  else if state = "Evening Down-Peak" then fun z => match z with
    | lobbyZ => 1/20 | midZ => 1/4 | upperZ => 7/10
  else if state = "Afternoon Mixed" then fun z => match z with
    | lobbyZ => 33/100 | midZ => 34/100 | upperZ => 33/100
  else if state = "Night Idle" then fun z => match z with
    | lobbyZ => 3/5 | midZ => 1/5 | upperZ => 1/5
  else if state = "Weekend Low-Demand" then fun z => match z with
    | lobbyZ => 1/2 | midZ => 3/10 | upperZ => 1/5
  else fun z => match z with
    | lobbyZ => 33/100 | midZ => 34/100 | upperZ => 33/100

/-- Python `max(tpl, key=tpl.get)`: the first key (in `ZONES` order) attaining
the maximum value; later keys replace the current best only when strictly
greater. -/
def primaryZone (t : Zone → ℚ) : Zone :=
  if t midZ > t lobbyZ then (if t upperZ > t midZ then upperZ else midZ)
  else (if t upperZ > t lobbyZ then upperZ else lobbyZ)

/-- The un-normalized adjusted proportions of `_proportions_from_state`. -/
def adjRaw (state : String) (y_hat : ℚ) (z : Zone) : ℚ :=
  if y_hat ≤ 1 then
    (if z = lobbyZ then template state z + 2/5 else template state z * (2/5))
  else if y_hat ≥ 10 then
    (if z = primaryZone (template state) then
      template state z + (1/10) * template state (primaryZone (template state))
    else template state z - (1/20) * template state (primaryZone (template state)))
  else template state z

/-- `_proportions_from_state`: normalized target proportions per zone. -/
def proportions_from_state (state : String) (y_hat : ℚ) : Zone → ℚ :=
  let adj := adjRaw state y_hat
  let total := zoneSumQ adj
  fun z => adj z / total

/-- Python `int(x)` (truncation toward zero) on a rational. -/
def ratTrunc (x : ℚ) : ℤ := if 0 ≤ x then ⌊x⌋ else ⌈x⌉

/-- The list `fracs` of `compute_desired_allocation`: pairs
`(zone, raw - floored)` sorted by `(-frac, ZONES.index zone)`
(Python `sorted` with that key; the index makes the key total). -/
def sortedFracs (raw : Zone → ℚ) (floored : Zone → ℤ) : List (Zone × ℚ) :=
  (zonesList.map (fun z => (z, raw z - (floored z : ℚ)))).mergeSort
    (fun a b => a.2 > b.2 ∨ (a.2 = b.2 ∧ zoneIdx a.1 ≤ zoneIdx b.1))

/-- `raw = {z: props[z] * n_elevators}` of `compute_desired_allocation`. -/
def cdaRaw (state : String) (y_hat : ℚ) (n : ℕ) : Zone → ℚ :=
  fun z => proportions_from_state state y_hat z * n

/-- `floored = {z: int(raw[z])}` of `compute_desired_allocation`. -/
def cdaFloored (state : String) (y_hat : ℚ) (n : ℕ) : Zone → ℤ :=
  fun z => ratTrunc (cdaRaw state y_hat n z)

/-- `remaining = n_elevators - sum(floored.values())`. -/
def cdaRemaining (state : String) (y_hat : ℚ) (n : ℕ) : ℤ :=
  (n : ℤ) - (cdaFloored state y_hat n lobbyZ + cdaFloored state y_hat n midZ +
    cdaFloored state y_hat n upperZ)

/-- The zones receiving one extra car: the first `remaining` entries of the
sorted `fracs` list. -/
def cdaGive (state : String) (y_hat : ℚ) (n : ℕ) : List Zone :=
  ((sortedFracs (cdaRaw state y_hat n) (cdaFloored state y_hat n)).take
    (cdaRemaining state y_hat n).toNat).map Prod.fst

/-- `compute_desired_allocation(state, y_hat, n_elevators)`: integer desired
counts per zone.  The Python loop `for i in range(remaining)` indexes into the
3-element `fracs` list, so it is faithful only while `remaining ≤ 3`
(we prove `remaining ≤ 2` below; beyond 3 the Python would raise IndexError,
which the `take` elides). -/
def compute_desired_allocation (state : String) (y_hat : ℚ) (n_elevators : ℕ) :
    Zone → ℤ :=
  fun z => cdaFloored state y_hat n_elevators z +
    (if z ∈ cdaGive state y_hat n_elevators then 1 else 0)

/-- `compute_reposition_moves`: surplus and deficit zone lists, with
multiplicity, in `ZONES` order. -/
def surplusList (curr desired : Zone → ℕ) : List Zone :=
  zonesList.flatMap (fun z => List.replicate (curr z - desired z) z)

/-- Deficit zones with multiplicity, in `ZONES` order. -/
def deficitList (curr desired : Zone → ℕ) : List Zone :=
  zonesList.flatMap (fun z => List.replicate (desired z - curr z) z)

/-- Per-zone car counts of a current-allocation list (`curr_counts`). -/
def currCounts (alloc : List Zone) : Zone → ℕ :=
  fun z => alloc.countP (fun a => a = z)

/-- `indices_by_zone`: for each zone, the indices of elevators parked there,
restricted to zones with a surplus (the membership test
`z in surplus_zones or curr_counts[z] > desired_alloc.get(z,0)` — the two
disjuncts are equivalent). -/
def indicesByZone (alloc : List Zone) (desired : Zone → ℕ) : Zone → List ℕ :=
  fun z =>
    if currCounts alloc z > desired z then
      (alloc.enum.filter (fun p => p.2 = z)).map Prod.fst
    else []

/-- One step of the pairing loop: pick the first zone in `ZONES` order with an
available elevator index, `pop()` its last index. -/
def popSource (idx : Zone → List ℕ) : Option (ℕ × (Zone → List ℕ)) :=
  match zonesList.find? (fun z => ¬ (idx z).isEmpty) with
  | none => none
  | some z =>
    match (idx z).getLast? with
    | none => none
    | some i => some (i, fun w => if w = z then (idx z).dropLast else idx w)

/-- The pairing loop of `compute_reposition_moves` over the deficit list. -/
def pairMoves (idx : Zone → List ℕ) : List Zone → List (ℕ × Zone)
  | [] => []
  | target :: rest =>
    match popSource idx with
    | none => []
    | some (i, idx2) => (i, target) :: pairMoves idx2 rest

/-- `compute_reposition_moves(current_alloc_list, desired_alloc)`. -/
def compute_reposition_moves (current : List Zone) (desired : Zone → ℕ) :
    List (ℕ × Zone) :=
  pairMoves (indicesByZone current desired) (deficitList (currCounts current) desired)

/-- Apply a list of `(elevator_index, target_zone)` moves to a current
allocation list (moving an elevator = re-assigning its zone). -/
def applyMoves (current : List Zone) (moves : List (ℕ × Zone)) : List Zone :=
  moves.foldl (fun acc m => acc.set m.1 m.2) current

/-! ## task3_evaluator_parking.py (situ model): per-epoch parking policies -/

/-- `parking_lobby(k)`. -/
def parking_lobby (k : ℕ) : List ℤ := List.replicate k 1

/-- `parking_last_stop(prev_parking, k)`. -/
def parking_last_stop (prev : List ℤ) (k : ℕ) : List ℤ :=
  if prev ≠ [] ∧ prev.length = k then prev else List.replicate k 1

/-- `zone` counts of the recent floor history: the masks
`hf <= lobby_max`, `lobby_max < hf <= mid_max`, `mid_max < hf`. -/
def histZoneCounts (hf : List ℤ) (lobby_max mid_max : ℤ) : Zone → ℕ
  | lobbyZ => hf.countP (fun f => f ≤ lobby_max)
  | midZ => hf.countP (fun f => lobby_max < f ∧ f ≤ mid_max)
  | upperZ => hf.countP (fun f => mid_max < f)

/-- `np.argmax` over the three per-zone scores: the first zone (in index
order) attaining the maximum; later zones win only when strictly greater. -/
def argmaxZone (s : Zone → ℚ) : Zone :=
  if s midZ > s lobbyZ then (if s upperZ > s midZ then upperZ else midZ)
  else (if s upperZ > s lobbyZ then upperZ else lobbyZ)

/-- The `while alloc.sum() < k` distribution loop of `parking_zone`:
each pass adds one car to the zone maximizing `props - alloc/max(1,k)`.
`fuel` bounds the iteration count (the Python loop runs `k - alloc.sum()`
times); callers pass `fuel = k`. -/
def allocLoop (props : Zone → ℚ) (k : ℕ) : ℕ → (Zone → ℕ) → (Zone → ℕ)
  | 0, alloc => alloc
  | fuel + 1, alloc =>
    if zoneSum alloc < k then
      let score : Zone → ℚ := fun z => props z - (alloc z : ℚ) / (max 1 k : ℕ)
      let i := argmaxZone score
      allocLoop props k fuel (fun z => if z = i then alloc z + 1 else alloc z)
    else alloc

/-- `np.median` of an integer list followed by Python `int()`
(sort; middle element, or the truncated mean of the two middle elements). -/
def npMedianInt (l : List ℤ) : ℤ :=
  let s := l.mergeSort (fun a b => a ≤ b)
  let n := s.length
  if n % 2 = 1 then s.getD (n / 2) 0
  else ratTrunc ((((s.getD (n / 2 - 1) 0) + (s.getD (n / 2) 0) : ℤ) : ℚ) / 2)

/-- `med_or_center(arr, lo, hi)` from `parking_zone`. -/
def medOrCenter (arr : List ℤ) (lo hi : ℤ) : ℤ :=
  if arr ≠ [] then npMedianInt arr else ratTrunc (((lo + hi : ℤ) : ℚ) / 2)

/-- The zone counts of `parking_zone` after the all-ones fallback for a
history that hits no zone (`if counts.sum() == 0: counts = [1,1,1]`). -/
def pzCounts (hf : List ℤ) (lm mm : ℤ) : Zone → ℕ :=
  if zoneSum (histZoneCounts hf lm mm) = 0 then fun _ => 1
  else histZoneCounts hf lm mm

/-- Proportional shares `counts / counts.sum()` of `parking_zone`. -/
def pzProps (hf : List ℤ) (lm mm : ℤ) : Zone → ℚ :=
  fun z => (pzCounts hf lm mm z : ℚ) / ((zoneSum (pzCounts hf lm mm) : ℕ) : ℚ)

/-- The final per-zone allocation of `parking_zone`:
`np.floor(props*k)` followed by the remainder-distribution loop. -/
def pzAlloc (hf : List ℤ) (k : ℕ) (lm mm : ℤ) : Zone → ℕ :=
  allocLoop (pzProps hf lm mm) k k
    (fun z => (⌊pzProps hf lm mm z * k⌋).toNat)

/-- `parking_zone(history_floors, k, lobby_max, mid_max, F_min, F_max)`.
The empty-history fallback allocates `[ceil(0.5*k), ceil(0.3*k), k - …]`
cars (the `[x]*n` of a negative `n` is the empty list, as in Python); the
non-empty branch allocates `floor(props*k)` then distributes the remainder
through the argmax loop. -/
def parking_zone (history_floors : List ℤ) (k : ℕ)
    (lobby_max mid_max F_min F_max : ℤ) : List ℤ :=
  if history_floors = [] then
    List.replicate ((k + 1) / 2) 1 ++
      List.replicate ((3 * k + 9) / 10)
        (ratTrunc (((lobby_max + mid_max : ℤ) : ℚ) / 2)) ++
      List.replicate ((k : ℤ) - ((k + 1) / 2 : ℕ) - ((3 * k + 9) / 10 : ℕ)).toNat
        (ratTrunc (((mid_max + F_max : ℤ) : ℚ) / 2))
  else
    List.replicate (pzAlloc history_floors k lobby_max mid_max lobbyZ) 1 ++
      List.replicate (pzAlloc history_floors k lobby_max mid_max midZ)
        (medOrCenter
          (history_floors.filter (fun f => lobby_max < f ∧ f ≤ mid_max))
          (lobby_max + 1) mid_max) ++
      List.replicate (pzAlloc history_floors k lobby_max mid_max upperZ)
        (medOrCenter (history_floors.filter (fun f => mid_max < f))
          (mid_max + 1) F_max)

/-- Python `round` (round half to even) followed by `int()`. -/
def pyRound (x : ℚ) : ℤ :=
  let f := ⌊x⌋
  let r := x - f
  if r < 1/2 then f
  else if r > 1/2 then f + 1
  else if f % 2 = 0 then f else f + 1

/-- `weighted_quantile_floors(floors, k)`: the k parking floors at quantile
positions `(i+0.5)/k` of the sorted empirical floor distribution. -/
def weighted_quantile_floors (floors : List ℤ) (k : ℕ) : List ℤ :=
  if floors = [] then []
  else
    let s := floors.mergeSort (fun a b => a ≤ b)
    let n := s.length
    (List.range k).map (fun i =>
      let q : ℚ := ((i : ℚ) + 1/2) / k
      let idx := min ((n : ℤ) - 1) (max 0 (pyRound (q * ((n : ℚ) - 1))))
      s.getD idx.toNat 0)

/-- `parking_dynamic(history_floors, k, fallback)`. -/
def parking_dynamic (history_floors : List ℤ) (k : ℕ) (fallback : List ℤ) :
    List ℤ :=
  if history_floors = [] then fallback else weighted_quantile_floors history_floors k

/-- The per-epoch strategy dispatch of the evaluator main loop
(`task3_evaluator_parking.main`): unknown names hit `raise ValueError(strat)`. -/
def evaluatorStrategyStep (strat : String) (prev : List ℤ) (hist : List ℤ)
    (k : ℕ) (lobby_max mid_max F_min F_max : ℤ) : Except String (List ℤ) :=
  if strat = "last_stop" then .ok (parking_last_stop prev k)
  else if strat = "lobby" then .ok (parking_lobby k)
  else if strat = "zone" then .ok (parking_zone hist k lobby_max mid_max F_min F_max)
  else if strat = "dynamic" then
    .ok (parking_dynamic hist k (parking_zone hist k lobby_max mid_max F_min F_max))
  else .error strat

/-- The call-level wait time of the evaluator main loop:
`wait = min_j |floor - park_j| * v_floor + door`
(`np.min` over a non-empty parking array; the `getD 0` default is
unreachable for a non-empty fleet). -/
def evaluatorCallWait (parks : List ℤ) (floor : ℤ) (v_floor door : ℚ) : ℚ :=
  (((parks.map (fun p => ((p - floor).natAbs : ℚ))).min?).getD 0) * v_floor + door

/-! ## task3_evaluator_simple.py: choose_parking_floor -/

/-- `choose_parking_floor(strategy, call_floor)`: `None` means "do not
reposition"; unknown strategies hit `raise ValueError(strategy)`. -/
def choose_parking_floor (strategy : String) (call_floor : ℤ) :
    Except String (Option ℤ) :=
  if strategy = "last_stop" then .ok none
  else if strategy = "lobby" then .ok (some 1)
  else if strategy = "zone" then
    .ok (some (if call_floor ≤ 3 then 1 else if call_floor ≤ 8 then 6 else 12))
  else if strategy = "dynamic" then .ok (some call_floor)
  else .error strategy

/-! ## np.percentile / pctl (make_report_tables_v2.py, run_stress_tests.py) -/

/-- `np.percentile(x, q)` with the default linear interpolation: on the
sorted data, position `pos = q/100*(n-1)`, value
`a[floor pos] + frac * (a[floor pos + 1] - a[floor pos])` (the index read is
clamped to `n-1`, which matters only at `pos = n-1` where `frac = 0`).
Meaningful only for non-empty `x` (numpy raises on empty input). -/
def npPercentile (x : List ℚ) (q : ℚ) : ℚ :=
  let s := x.mergeSort (fun a b => a ≤ b)
  let n := s.length
  let pos : ℚ := q / 100 * ((n : ℚ) - 1)
  let i : ℕ := (⌊pos⌋).toNat
  let frac : ℚ := pos - ⌊pos⌋
  let g : ℕ → ℚ := fun j => s.getD (min j (n - 1)) 0
  g i + frac * (g (i + 1) - g i)

/-- `pctl(x, q)` of make_report_tables_v2.py: `NaN` (here `none`) on an empty
sample, `np.percentile` otherwise. -/
def pctl (x : List ℚ) (q : ℚ) : Option ℚ :=
  if x.length = 0 then none else some (npPercentile x q)

/-! ## run_stress_tests.py: the discrete-event dispatch simulator -/

/-- `ElevatorState`: current floor and the time the car becomes available. -/
structure Car where
  floor : ℤ
  availableTime : ℚ
deriving DecidableEq, Repr

/-- `travel_time_seconds(f1, f2, seconds_per_floor)`. -/
def travel_time_seconds (f1 f2 : ℤ) (seconds_per_floor : ℚ) : ℚ :=
  ((f1 - f2).natAbs : ℚ) * seconds_per_floor

/-- Earliest possible arrival of a car at a call:
`max(available_time, call_time) + |car.floor - origin| * seconds_per_floor`. -/
def carArrival (c : Car) (callTime : ℚ) (origin : ℤ) (spf : ℚ) : ℚ :=
  max c.availableTime callTime + travel_time_seconds c.floor origin spf

/-- The car-selection fold of `simulate`: iterate over the cars in index
order keeping the best `(index, arrival)`, replacing only on strictly
earlier arrival (so the lowest index wins ties). -/
def chooseCarAux (callTime : ℚ) (origin : ℤ) (spf : ℚ) :
    List (ℕ × Car) → Option (ℕ × ℚ) → Option (ℕ × ℚ)
  | [], best => best
  | (e, c) :: rest, best =>
    let arr := carArrival c callTime origin spf
    match best with
    | none => chooseCarAux callTime origin spf rest (some (e, arr))
    | some (be, barr) =>
      if arr < barr then chooseCarAux callTime origin spf rest (some (e, arr))
      else chooseCarAux callTime origin spf rest (some (be, barr))

/-- `best_e, best_arrival` selection for one hall call. -/
def chooseCar (cars : List Car) (callTime : ℚ) (origin : ℤ) (spf : ℚ) :
    Option (ℕ × ℚ) :=
  chooseCarAux callTime origin spf cars.enum none

/-- Cumulative-weight quantile targets of the `dynamic` parking branch:
sort `(floor, weight)` pairs by floor, take the floor at the first index
where the normalized cumulative weight reaches `(i+0.5)/k`.  The `getD 0`
default is unreachable while some cumulative weight reaches `q` (otherwise
the Python indexes past the array and raises). -/
def dynamicTargets (pairs : List (ℤ × ℚ)) (k : ℕ) : List ℤ :=
  let sorted := pairs.mergeSort (fun a b => a.1 ≤ b.1)
  let wsum : ℚ := (sorted.map Prod.snd).sum + 1 / 10 ^ 12
  let cw : List ℚ := (List.range sorted.length).map
    (fun j => ((sorted.take (j + 1)).map Prod.snd).sum / wsum)
  (List.range k).map (fun i =>
    let q : ℚ := ((i : ℚ) + 1/2) / k
    let idx := (cw.findIdx (fun c => q ≤ c))
    (sorted.getD idx (0, 0)).1)

/-- `apply_parking_policy(t)` of `simulate`, one strategy step over the
fleet.  The k-means cluster of the decision epoch (`get_cluster_at`, an
sklearn pipeline prediction — an external collaborator) is abstracted as the
function argument `getCluster`; `demandLookup` is the `demand_lookup`
dictionary (cluster → weighted floor demand) and `fallbackFloors` the
`np.arange(min_floor, max_floor+1)` fallback built from the simulated call
window.  Note: any strategy name other than `last_stop`, `lobby`, `dynamic`
falls through every branch and leaves the fleet unchanged (Python reaches
the end of the function without raising). -/
def apply_parking_policy (strategy : String) (getCluster : ℚ → ℕ)
    (demandLookup : ℕ → Option (List (ℤ × ℚ))) (fallbackFloors : List ℤ)
    (spf : ℚ) (t : ℚ) (cars : List Car) : List Car :=
  let idle := (cars.enum.filter (fun p => p.2.availableTime ≤ t)).map Prod.fst
  if idle = [] then cars
  else if strategy = "last_stop" then cars
  else if strategy = "lobby" then
    cars.enum.map (fun p =>
      if p.1 ∈ idle ∧ p.2.floor ≠ 1 then
        { floor := 1,
          availableTime := t + travel_time_seconds p.2.floor 1 spf }
      else p.2)
  else if strategy = "dynamic" then
    let cl := getCluster t
    let pairs := match demandLookup cl with
      | some fw => fw
      | none => fallbackFloors.map (fun f => (f, (1 : ℚ)))
    let targets := dynamicTargets pairs idle.length
    let assignment := idle.zip targets
    cars.enum.map (fun p =>
      match assignment.lookup p.1 with
      | some tgt =>
        if p.2.floor ≠ tgt then
          { floor := tgt,
            availableTime := t + travel_time_seconds p.2.floor tgt spf }
        else p.2
      | none => p.2)
  else cars

/-- The decision-epoch grid `pd.date_range(start.floor(5min), end.ceil(5min),
freq=5min)`, with time in seconds on the rational line. -/
def decisionTimes (startT endT : ℚ) : List ℚ :=
  let a : ℤ := ⌊startT / 300⌋
  let b : ℤ := ⌈endT / 300⌉
  (List.range (b - a + 1).toNat).map (fun i => ((a + i) * 300 : ℤ))

/-- Consume every decision epoch at or before the current call time,
applying the parking policy at each (`while next_dec <= call_time`). -/
def stepDecisions (strategy : String) (getCluster : ℚ → ℕ)
    (demandLookup : ℕ → Option (List (ℤ × ℚ))) (fallbackFloors : List ℤ)
    (spf : ℚ) (callTime : ℚ) :
    List ℚ → List Car → List ℚ × List Car
  | [], cars => ([], cars)
  | d :: ds, cars =>
    if d ≤ callTime then
      stepDecisions strategy getCluster demandLookup fallbackFloors spf callTime
        ds (apply_parking_policy strategy getCluster demandLookup fallbackFloors spf d cars)
    else (d :: ds, cars)

/-- The per-call loop of `simulate`, producing the `waits` log in call
order.  If the fleet were empty the Python would raise on `best_e = None`;
the embedding returns the log collected so far (unreachable for the fixed
`N_ELEVATORS = 8` fleet). -/
def simLoop (strategy : String) (getCluster : ℚ → ℕ)
    (demandLookup : ℕ → Option (List (ℤ × ℚ))) (fallbackFloors : List ℤ)
    (spf door : ℚ) :
    List (ℚ × ℤ) → List ℚ → List Car → List ℚ
  | [], _, _ => []
  | (t, f) :: calls, decs, cars =>
    let step := stepDecisions strategy getCluster demandLookup fallbackFloors spf t decs cars
    match chooseCar step.2 t f spf with
    | none => []
    | some (e, arr) =>
      (arr - t) ::
        simLoop strategy getCluster demandLookup fallbackFloors spf door calls
          step.1 (step.2.set e { floor := f, availableTime := arr + door })

/-- The aggregate metrics returned by `simulate`; the NaN metrics of the
empty-window branch are `none`. -/
structure SimMetrics where
  awt : Option ℚ
  p95 : Option ℚ
  longWaitPct : Option ℚ
  n : ℕ
deriving DecidableEq, Repr

/-- `simulate(strategy, hall, …)`: sort the calls by time, restrict to
`[start_time, end_time]`, return NaN metrics on an empty window, else run
the dispatch loop from the decision grid and aggregate. -/
def simulate (strategy : String) (hall : List (ℚ × ℤ))
    (startT endT spf door longWaitThreshold : ℚ) (cars : List Car)
    (getCluster : ℚ → ℕ) (demandLookup : ℕ → Option (List (ℤ × ℚ))) :
    SimMetrics :=
  let hallSorted := hall.mergeSort (fun a b => a.1 ≤ b.1)
  let hallSim := hallSorted.filter (fun c => startT ≤ c.1 ∧ c.1 ≤ endT)
  if hallSim = [] then ⟨none, none, none, 0⟩
  else
    let floors := hallSim.map Prod.snd
    let fallbackFloors :=
      match floors.min?, floors.max? with
      | some lo, some hi => (List.range (hi - lo + 1).toNat).map (fun i => lo + i)
      | _, _ => []
    let waits := simLoop strategy getCluster demandLookup fallbackFloors spf door
      hallSim (decisionTimes startT endT) cars
    { awt := some (waits.sum / waits.length),
      p95 := some (npPercentile waits 95),
      longWaitPct := some (100 * ((waits.countP (fun w => longWaitThreshold ≤ w) : ℕ) : ℚ) / waits.length),
      n := waits.length }

/-! ## task2_classifier.py: rule-based traffic-state classifier -/

/-- The thresholds dictionary of `compute_thresholds`. -/
structure Thresholds where
  theta1 : ℚ
  theta2 : ℚ
  theta3 : ℚ
  alpha1 : ℚ
  alpha2 : ℚ
  alpha3 : ℚ
  beta1 : ℚ
deriving DecidableEq, Repr

/-- A per-interval feature row as consumed by `classify_interval`:
`count`, `r` (proportion up), `p1` (proportion from floor 1),
`w` (1 = weekday, 0 = weekend). -/
structure IntervalRow where
  count : ℚ
  r : ℚ
  p1 : ℚ
  w : ℕ
deriving DecidableEq, Repr

/-- `classify_interval(row, thr)`: the fixed if/elif decision chain. -/
def classify_interval (row : IntervalRow) (thr : Thresholds) : String :=
  if row.count < thr.theta1 then "Night Idle"
  else if row.w = 0 then "Weekend Low-Demand"
  else if thr.theta2 ≤ row.count ∧ thr.alpha1 ≤ row.r ∧ thr.beta1 ≤ row.p1 then
    "Morning Up-Peak"
  else if thr.theta3 ≤ row.count ∧ row.r ≤ thr.alpha2 then "Evening Down-Peak"
  else if thr.theta2 ≤ row.count ∧ thr.alpha2 < row.r ∧ row.r < thr.alpha3 then
    "Lunch Down-Peak"
  else "Afternoon Mixed"

/-- A prioritized first-match-wins rule table: apply the first rule whose
predicate holds (the last rule of the tables below is a catch-all). -/
def applyRules (rules : List ((IntervalRow → Thresholds → Bool) × String))
    (row : IntervalRow) (thr : Thresholds) : String :=
  match rules with
  | [] => ""
  | (p, label) :: rest =>
    if p row thr then label else applyRules rest row thr

/-- The decision order of `classify_interval` as an explicit prioritized
rule list (the behavioral contract of the classifier): note the second rule
fires for every weekend slot at or above `theta1`, with no low-volume
condition. -/
def classifierRuleTable : List ((IntervalRow → Thresholds → Bool) × String) :=
  [ (fun row thr => row.count < thr.theta1, "Night Idle"),
    (fun row _ => row.w = 0, "Weekend Low-Demand"),
    (fun row thr => thr.theta2 ≤ row.count ∧ thr.alpha1 ≤ row.r ∧ thr.beta1 ≤ row.p1,
      "Morning Up-Peak"),
    (fun row thr => thr.theta3 ≤ row.count ∧ row.r ≤ thr.alpha2, "Evening Down-Peak"),
    (fun row thr => thr.theta2 ≤ row.count ∧ thr.alpha2 < row.r ∧ row.r < thr.alpha3,
      "Lunch Down-Peak"),
    (fun _ _ => true, "Afternoon Mixed") ]

/-- Modelled from the spec claim's wording, for comparison with the code:
"below θ1 → Idle; weekend AND LOW → Weekend-Low-Demand; high volume +
strong-up + lobby-concentrated → Morning-Up-Peak; …".  The spec leaves
"low" informal; it is rendered here as `count < theta2` (not high-volume) —
any reading under which a slot at or above the high-activity threshold θ2
is not "low" gives the same disagreement with the code. -/
def classifySpecClaim (row : IntervalRow) (thr : Thresholds) : String :=
  if row.count < thr.theta1 then "Night Idle"
  else if row.w = 0 ∧ row.count < thr.theta2 then "Weekend Low-Demand"
  else if thr.theta2 ≤ row.count ∧ thr.alpha1 ≤ row.r ∧ thr.beta1 ≤ row.p1 then
    "Morning Up-Peak"
  else if thr.theta3 ≤ row.count ∧ row.r ≤ thr.alpha2 then "Evening Down-Peak"
  else if thr.theta2 ≤ row.count ∧ thr.alpha2 < row.r ∧ row.r < thr.alpha3 then
    "Lunch Down-Peak"
  else "Afternoon Mixed"

/-! ## task1_model.py (route B): demand series and baseline+AR(1) fit -/

/-- Floor a timestamp (minutes) to its 5-minute slot boundary
(`dt.floor('5T')`). -/
def slotOf (t : ℕ) : ℕ := 5 * (t / 5)

/-- `df.groupby('interval_start').size()`: one `(slot, count)` entry per
observed slot. -/
def groupCounts (calls : List ℕ) : List (ℕ × ℕ) :=
  ((calls.map slotOf).dedup).map (fun s => (s, calls.countP (fun c => slotOf c = s)))

/-- `build_5min_series` (count column): reindex the grouped counts over
`pd.date_range(min_slot, max_slot, freq='5T')`, filling missing slots
with 0. -/
def build_5min_series (calls : List ℕ) : List (ℕ × ℕ) :=
  match (calls.map slotOf).min?, (calls.map slotOf).max? with
  | some m, some M =>
    (List.range' m ((M - m) / 5 + 1) 5).map
      (fun s => (s, ((groupCounts calls).lookup s).getD 0))
  | _, _ => []

/-- One row of the `series_df` consumed by `estimate_baseline_and_phi`:
count, regime `w` and time-of-day index `tau`. -/
structure SeriesSlot where
  count : ℕ
  w : ℕ
  tau : ℕ
deriving DecidableEq, Repr

/-- `mu_w(tau)`: arithmetic mean of counts over the slots matching
`(w, tau)`, `0.0` if no slot matches. -/
def muBaseline (slots : List SeriesSlot) (w tau : ℕ) : ℚ :=
  let vals := (slots.filter (fun s => s.w = w ∧ s.tau = tau)).map
    (fun s => (s.count : ℚ))
  if vals.length = 0 then 0 else vals.sum / vals.length

/-- The residual `e_t = y_t - mu_w(tau)` of a slot. -/
def residual (slots : List SeriesSlot) (s : SeriesSlot) : ℚ :=
  (s.count : ℚ) - muBaseline slots s.w s.tau

/-- The consecutive same-regime pairs `(slot_{t-1}, slot_t)` used for the
AR(1) fit of regime `w` (the `roll`/`valid` masking of the source keeps
exactly the pairs with both endpoints in regime `w`). -/
def regimePairs (slots : List SeriesSlot) (w : ℕ) : List (SeriesSlot × SeriesSlot) :=
  (slots.zip slots.tail).filter (fun p => p.1.w = w ∧ p.2.w = w)

/-- `phi_w`: OLS slope without intercept on the lag-1 residuals,
`0.0` when there is no same-regime pair or the denominator vanishes. -/
def phiEstimate (slots : List SeriesSlot) (w : ℕ) : ℚ :=
  let ps := regimePairs slots w
  if ps.length = 0 then 0
  else
    let denom := (ps.map (fun p => residual slots p.1 * residual slots p.1)).sum
    if denom = 0 then 0
    else (ps.map (fun p => residual slots p.1 * residual slots p.2)).sum / denom

/-! ## make_report_tables_v2.py: summarize_task3 -/

/-- One row of the Task 3 summary table for a strategy group. -/
structure Task3Summary where
  n : ℕ
  awt : ℚ
  p90 : Option ℚ
  p95 : Option ℚ
  p99 : Option ℚ
  longWaitPct : ℚ
deriving DecidableEq, Repr

/-- `summarize_task3` restricted to one strategy group: `N`, mean wait,
`pctl` at 90/95/99 and the long-wait rate. -/
def summarize_task3_row (waits : List ℚ) (longWaitThreshold : ℚ) : Task3Summary :=
  { n := waits.length,
    awt := waits.sum / waits.length,
    p90 := pctl waits 90,
    p95 := pctl waits 95,
    p99 := pctl waits 99,
    longWaitPct := 100 * ((waits.countP (fun w => longWaitThreshold ≤ w) : ℕ) : ℚ) / waits.length }

/-! ## Theorems -/

/-- C1 (counterexample): with an empty call history and fleet size `k = 1`,
`parking_zone` returns 2 target floors, not 1 — the `ceil(0.5*1) = 1`,
`ceil(0.3*1) = 1` fallback allocation leaves `1 - 1 - 1 = -1` for the upper
zone, so the plan has `1 + 1 + 0 = 2` assignments. -/
theorem C1_counterexample :
    (parking_zone [] 1 3 8 1 12).length = 2 ∧ (2 : ℕ) ≠ 1 := by
  constructor
  · rfl
  · decide

/-- C2 (counterexample): in the stress-test dispatch simulator, with
`seconds_per_floor = 1.5`, `door_time = 8.0`, one car at floor 1 available
from time 0, strategy `lobby` and a single call at floor 5 at time 0, the
recorded wait is `|1-5| * 1.5 = 6.0` seconds — not `14.0`: this simulator's
wait is arrival minus call time, and `door_time` only extends the car's next
availability. -/
theorem C2_counterexample :
    (simulate "lobby" [(0, 5)] 0 0 (3/2) 8 60 [⟨1, 0⟩] (fun _ => 0) (fun _ => none)).n = 1 ∧
    (simulate "lobby" [(0, 5)] 0 0 (3/2) 8 60 [⟨1, 0⟩] (fun _ => 0) (fun _ => none)).awt = some 6 ∧
    (simulate "lobby" [(0, 5)] 0 0 (3/2) 8 60 [⟨1, 0⟩] (fun _ => 0) (fun _ => none)).awt ≠ some 14 := by
  refine ⟨?_, ?_, ?_⟩ <;>
    · simp [simulate, List.mergeSort, simLoop, stepDecisions, apply_parking_policy,
        chooseCar, chooseCarAux, carArrival, travel_time_seconds, decisionTimes]
      try norm_num

/-- C2 (amended): the bin-based parking evaluator
(`task3_evaluator_parking`) does record `|1-5| * 1.5 + 8.0 = 14.0` for a
call at floor 5 against a single parking floor 1, while the stress-test
dispatch simulator records the travel-only wait `6.0` on the claimed
scenario. -/
theorem C2_amended_waits :
    evaluatorCallWait [1] 5 (3/2) 8 = 14 ∧
    (simulate "lobby" [(0, 5)] 0 0 (3/2) 8 60 [⟨1, 0⟩] (fun _ => 0) (fun _ => none)).awt =
      some ((4 : ℚ) * (3/2)) := by
  constructor
  · simp [evaluatorCallWait]; norm_num
  · simp [simulate, List.mergeSort, simLoop, stepDecisions, apply_parking_policy,
      chooseCar, chooseCarAux, carArrival, travel_time_seconds, decisionTimes]
    try norm_num

/-- C3 (counterexample): the stress-test engine silently accepts the
strategy name `dynamic_kmeans` (which `apply_parking_policy` does not
implement): the parking step leaves the fleet unchanged, and a full
simulation run completes normally, producing the same metrics as
`last_stop`, instead of raising an error. -/
theorem C3_counterexample :
    apply_parking_policy "dynamic_kmeans" (fun _ => 0) (fun _ => none) [] 1 0 [⟨5, 0⟩] =
      [⟨5, 0⟩] ∧
    simulate "dynamic_kmeans" [(0, 5)] 0 0 (3/2) 8 60 [⟨3, 0⟩] (fun _ => 0) (fun _ => none) =
      simulate "last_stop" [(0, 5)] 0 0 (3/2) 8 60 [⟨3, 0⟩] (fun _ => 0) (fun _ => none) ∧
    (simulate "dynamic_kmeans" [(0, 5)] 0 0 (3/2) 8 60 [⟨3, 0⟩] (fun _ => 0) (fun _ => none)).n = 1 := by
  refine ⟨?_, ?_, ?_⟩ <;>
    simp [simulate, List.mergeSort, simLoop, stepDecisions, apply_parking_policy,
      chooseCar, chooseCarAux, carArrival, travel_time_seconds, decisionTimes]

/-- C3 (amended): an unknown parking-strategy name is rejected with an
error by the parking evaluator's dispatch and by
`choose_parking_floor` of the simple evaluator, but the stress-test
engine's `apply_parking_policy` silently treats it as a no-op policy. -/
theorem C3_amended (strat : String)
    (h : strat ∉ ["last_stop", "lobby", "zone", "dynamic"]) :
    (∀ prev hist k lm mm fmin fmax,
        evaluatorStrategyStep strat prev hist k lm mm fmin fmax = .error strat) ∧
    (∀ f, choose_parking_floor strat f = .error strat) ∧
    (∀ gc dl fb spf t cars,
        apply_parking_policy strat gc dl fb spf t cars = cars) := by
  simp only [List.mem_cons, List.not_mem_nil, or_false, not_or] at h
  obtain ⟨h1, h2, h3, h4⟩ := h
  refine ⟨?_, ?_, ?_⟩
  · intro prev hist k lm mm fmin fmax
    simp [evaluatorStrategyStep, h1, h2, h3, h4]
  · intro f
    simp [choose_parking_floor, h1, h2, h3, h4]
  · intro gc dl fb spf t cars
    simp [apply_parking_policy, h1, h2, h4]

/-- C3 (witness for the amended theorem, at the strategy name
`dynamic_kmeans` that the stress-test script itself requests). -/
theorem C3_amended_witness :
    evaluatorStrategyStep "dynamic_kmeans" [] [] 8 3 8 1 12 = .error "dynamic_kmeans" ∧
    choose_parking_floor "dynamic_kmeans" 5 = .error "dynamic_kmeans" ∧
    apply_parking_policy "dynamic_kmeans" (fun _ => 0) (fun _ => none) [] 1 300 [⟨5, 100⟩] =
      [⟨5, 100⟩] :=
  ⟨(C3_amended "dynamic_kmeans" (by decide)).1 [] [] 8 3 8 1 12,
   (C3_amended "dynamic_kmeans" (by decide)).2.1 5,
   (C3_amended "dynamic_kmeans" (by decide)).2.2 (fun _ => 0) (fun _ => none) [] 1 300 [⟨5, 100⟩]⟩

/-- C4 (counterexample): on a high-volume weekend slot (count 20 ≥ θ2 = 10,
up-ratio 0.7 ≥ α1 = 0.6, lobby share 0.5 ≥ β1 = 0.3), the code returns
`Weekend Low-Demand` — its weekend rule has no low-volume condition — while
the claim's rule order (weekend AND low) yields `Morning Up-Peak`. -/
theorem C4_counterexample :
    classify_interval ⟨20, 7/10, 1/2, 0⟩ ⟨2, 10, 10, 3/5, 2/5, 3/5, 3/10⟩ =
      "Weekend Low-Demand" ∧
    classifySpecClaim ⟨20, 7/10, 1/2, 0⟩ ⟨2, 10, 10, 3/5, 2/5, 3/5, 3/10⟩ =
      "Morning Up-Peak" ∧
    ("Weekend Low-Demand" : String) ≠ "Morning Up-Peak" := by
  refine ⟨by rfl, ?_, by decide⟩
  norm_num [classifySpecClaim]

/-- C4 (amended): `classify_interval` is exactly the first-match-wins
application of the prioritized rule list: below θ1 → Night Idle; weekend
(any volume at or above θ1) → Weekend Low-Demand; `C ≥ θ2 ∧ r ≥ α1 ∧
p1 ≥ β1` → Morning Up-Peak; `C ≥ θ3 ∧ r ≤ α2` → Evening Down-Peak;
`C ≥ θ2 ∧ α2 < r < α3` → Lunch Down-Peak; otherwise Afternoon Mixed. -/
theorem C4_amended_rule_order (row : IntervalRow) (thr : Thresholds) :
    classify_interval row thr = applyRules classifierRuleTable row thr := by
  simp [classify_interval, classifierRuleTable, applyRules, decide_eq_true_eq]

/-- C10 (code bug): with current allocation `[Lobby, Lobby, Mid]` and
desired allocation `{Lobby 1, Mid 0, Upper 2}` (which sums to the fleet
size 3), `compute_reposition_moves` moves BOTH Lobby cars to Upper and
leaves the Mid car in place, so the resulting per-zone counts
`(0, 1, 2)` do not equal the desired `(1, 0, 2)` — the greedy pairing pops
surplus candidates beyond a zone's actual surplus. -/
theorem C10_reposition_moves_failing_input :
    zoneSum (fun z => match z with
      | Zone.lobbyZ => 1 | Zone.midZ => 0 | Zone.upperZ => 2) =
      ([Zone.lobbyZ, Zone.lobbyZ, Zone.midZ] : List Zone).length ∧
    compute_reposition_moves [Zone.lobbyZ, Zone.lobbyZ, Zone.midZ]
      (fun z => match z with
        | Zone.lobbyZ => 1 | Zone.midZ => 0 | Zone.upperZ => 2) =
      [(1, Zone.upperZ), (0, Zone.upperZ)] ∧
    applyMoves [Zone.lobbyZ, Zone.lobbyZ, Zone.midZ]
      (compute_reposition_moves [Zone.lobbyZ, Zone.lobbyZ, Zone.midZ]
        (fun z => match z with
          | Zone.lobbyZ => 1 | Zone.midZ => 0 | Zone.upperZ => 2)) =
      [Zone.upperZ, Zone.upperZ, Zone.midZ] ∧
    currCounts [Zone.upperZ, Zone.upperZ, Zone.midZ] Zone.lobbyZ = 0 ∧ (0 : ℕ) ≠ 1 := by
  refine ⟨by rfl, by rfl, by rfl, by rfl, by decide⟩

/-- C5: if the (sorted) hall-call stream restricted to the simulated window
is empty, the dispatch simulator returns the degenerate metrics
(AWT, P95, long-wait rate all NaN — modelled as `none` — and `N = 0`)
without error (the embedding is a total function). -/
theorem C5_empty_window_nan (strategy : String) (hall : List (ℚ × ℤ))
    (startT endT spf door thr : ℚ) (cars : List Car) (gc : ℚ → ℕ)
    (dl : ℕ → Option (List (ℤ × ℚ)))
    (h : (hall.mergeSort (fun a b => a.1 ≤ b.1)).filter
        (fun c => startT ≤ c.1 ∧ c.1 ≤ endT) = []) :
    simulate strategy hall startT endT spf door thr cars gc dl =
      ⟨none, none, none, 0⟩ := by
  simp only [simulate]
  rw [h]
  simp

/-- C5 (witness): a single call at time 400 lies outside the window
`[0, 10]`, so the run returns the NaN metrics with `N = 0`. -/
theorem C5_witness :
    simulate "lobby" [(400, 5)] 0 10 (3/2) 8 60 [⟨1, 0⟩] (fun _ => 0) (fun _ => none) =
      ⟨none, none, none, 0⟩ :=
  C5_empty_window_nan "lobby" [(400, 5)] 0 10 (3/2) 8 60 [⟨1, 0⟩] (fun _ => 0)
    (fun _ => none) (by simp [List.mergeSort]; norm_num)

/-- Invariant of the car-selection fold: starting from the accumulator
`(be, barr)` and folding over the cars of `l` carrying indices from `n`,
the result is the running minimum arrival, and a strict improvement at the
first position attaining it is the only way the accumulator changes. -/
lemma chooseCarAux_spec (t : ℚ) (f : ℤ) (spf : ℚ) (l : List Car) :
    ∀ (n be : ℕ) (barr : ℚ),
      ∃ re rarr,
        chooseCarAux t f spf (l.enumFrom n) (some (be, barr)) = some (re, rarr) ∧
        rarr ≤ barr ∧
        (∀ i (hi : i < l.length), rarr ≤ carArrival l[i] t f spf) ∧
        ((re = be ∧ rarr = barr) ∨
          ∃ i, ∃ hi : i < l.length, re = n + i ∧
            rarr = carArrival l[i] t f spf ∧ rarr < barr ∧
            ∀ j, ∀ hj : j < i, rarr < carArrival l[j] t f spf) := by
  induction l with
  | nil =>
    intro n be barr
    refine ⟨be, barr, by simp [chooseCarAux, List.enumFrom], le_refl _, ?_,
      Or.inl ⟨rfl, rfl⟩⟩
    intro i hi
    exact absurd hi (by simp)
  | cons c tl ih =>
    intro n be barr
    have hstep : (c :: tl).enumFrom n = (n, c) :: tl.enumFrom (n + 1) := rfl
    by_cases harr : carArrival c t f spf < barr
    · obtain ⟨re, rarr, heq, hle, hmin, hcase⟩ :=
        ih (n + 1) n (carArrival c t f spf)
      refine ⟨re, rarr, ?_, hle.trans (le_of_lt harr), ?_, ?_⟩
      · rw [hstep]
        simpa [chooseCarAux, harr] using heq
      · intro i hi
        match i with
        | 0 => simpa using hle
        | i + 1 =>
          have := hmin i (by simpa using hi)
          simpa using this
      · right
        rcases hcase with ⟨hre, hrarr⟩ | ⟨i, hi, hre, hrarr, hlt, hstrict⟩
        · refine ⟨0, by simp, by omega, by simpa using hrarr, hrarr ▸ harr, ?_⟩
          intro j hj
          exact absurd hj (Nat.not_lt_zero j)
        · refine ⟨i + 1, by simpa using hi, by omega, by simpa using hrarr,
            lt_of_le_of_lt hle harr, ?_⟩
          intro j hj
          match j with
          | 0 => simpa using hlt
          | j + 1 =>
            have := hstrict j (by omega)
            simpa using this
    · obtain ⟨re, rarr, heq, hle, hmin, hcase⟩ := ih (n + 1) be barr
      have hbarr : barr ≤ carArrival c t f spf := not_lt.mp harr
      refine ⟨re, rarr, ?_, hle, ?_, ?_⟩
      · rw [hstep]
        simpa [chooseCarAux, harr] using heq
      · intro i hi
        match i with
        | 0 => simpa using hle.trans hbarr
        | i + 1 =>
          have := hmin i (by simpa using hi)
          simpa using this
      · rcases hcase with ⟨hre, hrarr⟩ | ⟨i, hi, hre, hrarr, hlt, hstrict⟩
        · exact Or.inl ⟨hre, hrarr⟩
        · right
          refine ⟨i + 1, by simpa using hi, by omega, by simpa using hrarr, hlt, ?_⟩
          intro j hj
          match j with
          | 0 => simpa using lt_of_lt_of_le hlt hbarr
          | j + 1 =>
            have := hstrict j (by omega)
            simpa using this

/-- C8: the dispatch simulator is deterministic — two runs on the same
`(strategy, call stream, parameters)` input are equal (the embedding is a
pure function of its inputs) — and the per-call selection `chooseCar`
returns the car with minimum earliest-possible arrival, ties broken by the
lowest car index. -/
theorem C8_deterministic_min_dispatch (strategy : String) (hall : List (ℚ × ℤ))
    (startT endT spf0 door thr : ℚ) (gc : ℚ → ℕ)
    (dl : ℕ → Option (List (ℤ × ℚ))) (cars : List Car) (t : ℚ) (f : ℤ)
    (spf : ℚ) (h : cars ≠ []) :
    (simulate strategy hall startT endT spf0 door thr cars gc dl =
      simulate strategy hall startT endT spf0 door thr cars gc dl) ∧
    ∃ e arr, chooseCar cars t f spf = some (e, arr) ∧
      ∃ he : e < cars.length,
        arr = carArrival cars[e] t f spf ∧
        (∀ j, ∀ hj : j < cars.length, arr ≤ carArrival cars[j] t f spf) ∧
        (∀ j, ∀ hj : j < cars.length,
          carArrival cars[j] t f spf = arr → e ≤ j) := by
  refine ⟨rfl, ?_⟩
  match cars, h with
  | c :: tl, _ =>
    obtain ⟨re, rarr, heq, hle, hmin, hcase⟩ :=
      chooseCarAux_spec t f spf tl 1 0 (carArrival c t f spf)
    have hchoose : chooseCar (c :: tl) t f spf = some (re, rarr) := heq
    refine ⟨re, rarr, hchoose, ?_⟩
    rcases hcase with ⟨hre, hrarr⟩ | ⟨i, hi, hre, hrarr, hlt, hstrict⟩
    · refine ⟨by simp [List.length_cons]; omega, by simpa [hre] using hrarr, ?_, ?_⟩
      · intro j hj
        match j with
        | 0 => simpa using hle
        | j + 1 =>
          have := hmin j (by simpa using hj)
          simpa using this
      · intro j hj heqj
        omega
    · have hire : re = 1 + i := by omega
      have hre2 : re < (c :: tl).length := by simp [List.length_cons]; omega
      refine ⟨hre2, ?_, ?_, ?_⟩
      · have hget : (c :: tl)[re] = tl[i] := by
          subst hire
          simp [List.getElem_cons_succ, Nat.add_comm]
        rw [hget]
        exact hrarr
      · intro j hj
        match j with
        | 0 => simpa using hle
        | j + 1 =>
          have := hmin j (by simpa using hj)
          simpa using this
      · intro j hj heqj
        by_contra hjre
        push_neg at hjre
        match j, hjre with
        | 0, _ =>
          have h0 : carArrival c t f spf = rarr := by simpa using heqj
          exact absurd (h0 ▸ hlt) (lt_irrefl _)
        | j + 1, hjre2 =>
          have hji : j < i := by omega
          have := hstrict j hji
          have h1 : carArrival tl[j] t f spf = rarr := by simpa using heqj
          exact absurd (h1 ▸ this) (lt_irrefl _)

/-- C8 (witness): a concrete two-car fleet — the second car is closer, so
index 1 with arrival `max(0,0) + |1-2|*1 = 1` is selected, and the
minimality and tie-break properties are instantiated. -/
theorem C8_witness :
    (simulate "lobby" [(0, 5)] 0 0 1 8 60 [⟨3, 0⟩, ⟨2, 0⟩] (fun _ => 0) (fun _ => none) =
      simulate "lobby" [(0, 5)] 0 0 1 8 60 [⟨3, 0⟩, ⟨2, 0⟩] (fun _ => 0) (fun _ => none)) ∧
    ∃ e arr, chooseCar [⟨3, 0⟩, ⟨2, 0⟩] 0 1 1 = some (e, arr) ∧
      ∃ he : e < ([⟨3, 0⟩, ⟨2, 0⟩] : List Car).length,
        arr = carArrival ([⟨3, 0⟩, ⟨2, 0⟩] : List Car)[e] 0 1 1 ∧
        (∀ j, ∀ hj : j < ([⟨3, 0⟩, ⟨2, 0⟩] : List Car).length,
          arr ≤ carArrival ([⟨3, 0⟩, ⟨2, 0⟩] : List Car)[j] 0 1 1) ∧
        (∀ j, ∀ hj : j < ([⟨3, 0⟩, ⟨2, 0⟩] : List Car).length,
          carArrival ([⟨3, 0⟩, ⟨2, 0⟩] : List Car)[j] 0 1 1 = arr → e ≤ j) :=
  C8_deterministic_min_dispatch "lobby" [(0, 5)] 0 0 1 8 60 (fun _ => 0) (fun _ => none)
    [⟨3, 0⟩, ⟨2, 0⟩] 0 1 1 (by simp)

/-- In a sorted list, `getD _ 0` is monotone over in-range indices. -/
lemma getD_sorted_mono {s : List ℚ} (hs : List.Sorted (· ≤ ·) s) {i j : ℕ}
    (hij : i ≤ j) (hj : j < s.length) : s.getD i 0 ≤ s.getD j 0 := by
  have hi : i < s.length := lt_of_le_of_lt hij hj
  rw [List.getD_eq_getElem?_getD, List.getD_eq_getElem?_getD,
    List.getElem?_eq_getElem hi, List.getElem?_eq_getElem hj]
  simp only [Option.getD_some]
  rcases Nat.eq_or_lt_of_le hij with rfl | hlt
  · exact le_refl _
  · have := hs.rel_get_of_lt (a := ⟨i, hi⟩) (b := ⟨j, hj⟩) (by exact hlt)
    simpa using this

/-- Monotonicity of the linear interpolation
`g ⌊p⌋ + (p - ⌊p⌋) * (g (⌊p⌋+1) - g ⌊p⌋)` in the position `p ≥ 0`,
for a monotone table `g`. -/
lemma interp_mono (g : ℕ → ℚ) (hg : ∀ i j : ℕ, i ≤ j → g i ≤ g j)
    {p q : ℚ} (hp : 0 ≤ p) (hpq : p ≤ q) :
    g (⌊p⌋.toNat) + (p - ⌊p⌋) * (g (⌊p⌋.toNat + 1) - g (⌊p⌋.toNat)) ≤
      g (⌊q⌋.toNat) + (q - ⌊q⌋) * (g (⌊q⌋.toNat + 1) - g (⌊q⌋.toNat)) := by
  have hq : 0 ≤ q := hp.trans hpq
  have hfp0 : (0 : ℤ) ≤ ⌊p⌋ := Int.floor_nonneg.mpr hp
  have hfq0 : (0 : ℤ) ≤ ⌊q⌋ := Int.floor_nonneg.mpr hq
  have hfpq : ⌊p⌋ ≤ ⌊q⌋ := Int.floor_le_floor hpq
  have hcp : ((⌊p⌋.toNat : ℕ) : ℚ) = ((⌊p⌋ : ℤ) : ℚ) := by
    exact_mod_cast Int.toNat_of_nonneg hfp0
  have hcq : ((⌊q⌋.toNat : ℕ) : ℚ) = ((⌊q⌋ : ℤ) : ℚ) := by
    exact_mod_cast Int.toNat_of_nonneg hfq0
  have hp1 : 0 ≤ p - ⌊p⌋ := sub_nonneg.mpr (Int.floor_le p)
  have hp2 : p - ⌊p⌋ < 1 := by
    have := Int.lt_floor_add_one p
    push_cast at this
    linarith
  have hq1 : 0 ≤ q - ⌊q⌋ := sub_nonneg.mpr (Int.floor_le q)
  have hDp : 0 ≤ g (⌊p⌋.toNat + 1) - g (⌊p⌋.toNat) :=
    sub_nonneg.mpr (hg _ _ (Nat.le_succ _))
  have hDq : 0 ≤ g (⌊q⌋.toNat + 1) - g (⌊q⌋.toNat) :=
    sub_nonneg.mpr (hg _ _ (Nat.le_succ _))
  rcases eq_or_lt_of_le hfpq with hc | hc
  · rw [hc]
    nlinarith [hDq, hpq]
  · have hstep : ⌊p⌋.toNat + 1 ≤ ⌊q⌋.toNat := by omega
    have c1 : g (⌊p⌋.toNat) + (p - ⌊p⌋) * (g (⌊p⌋.toNat + 1) - g (⌊p⌋.toNat)) ≤
        g (⌊p⌋.toNat + 1) := by nlinarith [hDp, hp2]
    have c2 : g (⌊p⌋.toNat + 1) ≤ g (⌊q⌋.toNat) := hg _ _ hstep
    have c3 : g (⌊q⌋.toNat) ≤
        g (⌊q⌋.toNat) + (q - ⌊q⌋) * (g (⌊q⌋.toNat + 1) - g (⌊q⌋.toNat)) := by
      nlinarith [hDq, hq1]
    exact (c1.trans c2).trans c3

/-- `np.percentile` with linear interpolation is monotone in the percentile
rank on a non-empty sample. -/
lemma npPercentile_mono (x : List ℚ) (hx : x ≠ []) {q1 q2 : ℚ}
    (h0 : 0 ≤ q1) (h12 : q1 ≤ q2) :
    npPercentile x q1 ≤ npPercentile x q2 := by
  unfold npPercentile
  have hs : List.Sorted (· ≤ ·) (x.mergeSort (fun a b => a ≤ b)) :=
    List.sorted_mergeSort' x
  have hn : 0 < (x.mergeSort (fun a b => a ≤ b)).length := by
    rw [List.length_mergeSort]
    exact List.length_pos.mpr hx
  set s := x.mergeSort (fun a b => a ≤ b) with hsdef
  have hg : ∀ i j : ℕ, i ≤ j → s.getD (min i (s.length - 1)) 0 ≤
      s.getD (min j (s.length - 1)) 0 := by
    intro i j hij
    exact getD_sorted_mono hs (by omega) (by omega)
  have hn1 : (0 : ℚ) ≤ (s.length : ℚ) - 1 := by
    have : (1 : ℚ) ≤ (s.length : ℚ) := by exact_mod_cast hn
    linarith
  have hpos : 0 ≤ q1 / 100 * ((s.length : ℚ) - 1) :=
    mul_nonneg (div_nonneg h0 (by norm_num)) hn1
  have hposle : q1 / 100 * ((s.length : ℚ) - 1) ≤ q2 / 100 * ((s.length : ℚ) - 1) := by
    have : q1 / 100 ≤ q2 / 100 := by linarith
    exact mul_le_mul_of_nonneg_right this hn1
  exact interp_mono _ hg hpos hposle

/-- C9: for every non-empty wait-time sample, the Task 3 summary satisfies
`P90 ≤ P95 ≤ P99`. -/
theorem C9_percentile_order (waits : List ℚ) (thr : ℚ) (h : waits ≠ []) :
    ∃ a b c, (summarize_task3_row waits thr).p90 = some a ∧
      (summarize_task3_row waits thr).p95 = some b ∧
      (summarize_task3_row waits thr).p99 = some c ∧ a ≤ b ∧ b ≤ c := by
  have hlen : ¬ waits.length = 0 := by simpa using h
  refine ⟨npPercentile waits 90, npPercentile waits 95, npPercentile waits 99,
    ?_, ?_, ?_, ?_, ?_⟩
  · simp [summarize_task3_row, pctl, hlen]
  · simp [summarize_task3_row, pctl, hlen]
  · simp [summarize_task3_row, pctl, hlen]
  · exact npPercentile_mono waits h (by norm_num) (by norm_num)
  · exact npPercentile_mono waits h (by norm_num) (by norm_num)

/-- C9 (witness): instantiated on the sample `[3, 1, 7]`. -/
theorem C9_witness :
    ∃ a b c, (summarize_task3_row [3, 1, 7] 60).p90 = some a ∧
      (summarize_task3_row [3, 1, 7] 60).p95 = some b ∧
      (summarize_task3_row [3, 1, 7] 60).p99 = some c ∧ a ≤ b ∧ b ≤ c :=
  C9_percentile_order [3, 1, 7] 60 (by simp)

/-- `lookup` over an association list built by pairing each key with a
computed value. -/
lemma lookup_map_pair (l : List ℕ) (g : ℕ → ℕ) (x : ℕ) :
    ((l.map (fun a => (a, g a))).lookup x) = if x ∈ l then some (g x) else none := by
  induction l with
  | nil => simp
  | cons a t ih =>
    by_cases hxa : x = a
    · subst hxa
      simp [List.lookup]
    · have hb : (x == a) = false := beq_eq_false_iff_ne.mpr hxa
      simp [List.lookup, hb, ih, hxa]

/-- Reading the grouped counts at any slot, with default 0, gives exactly
the number of calls mapped to that slot. -/
lemma lookup_groupCounts (calls : List ℕ) (s : ℕ) :
    ((groupCounts calls).lookup s).getD 0 = calls.countP (fun c => slotOf c = s) := by
  unfold groupCounts
  rw [lookup_map_pair]
  by_cases hmem : s ∈ (calls.map slotOf).dedup
  · simp [hmem]
  · have hnot : ∀ c ∈ calls, ¬ (slotOf c = s) := by
      intro c hc he
      exact hmem (List.mem_dedup.mpr (he ▸ List.mem_map_of_mem slotOf hc))
    simp only [hmem, if_neg, Option.getD_none, if_false]
    symm
    rw [List.countP_eq_zero]
    intro a ha
    simpa using hnot a ha

/-- C7: for every non-empty call list, the 5-minute series is indexed
contiguously at the slot frequency from the earliest to the latest observed
slot, every row carries the exact per-slot call count, and every slot with
no call carries count 0. -/
theorem C7_series_contiguous (calls : List ℕ) (h : calls ≠ []) :
    ∃ m M, (calls.map slotOf).min? = some m ∧ (calls.map slotOf).max? = some M ∧
      (build_5min_series calls).length = (M - m) / 5 + 1 ∧
      (∀ i, ∀ hi : i < (build_5min_series calls).length,
        ((build_5min_series calls)[i]).1 = m + 5 * i) ∧
      m + 5 * ((M - m) / 5) = M ∧
      (∀ p ∈ build_5min_series calls, p.2 = calls.countP (fun c => slotOf c = p.1)) ∧
      (∀ p ∈ build_5min_series calls,
        (∀ c ∈ calls, slotOf c ≠ p.1) → p.2 = 0) := by
  have hne : calls.map slotOf ≠ [] := by simpa using h
  obtain ⟨m, hm⟩ : ∃ m, (calls.map slotOf).min? = some m := by
    cases hmm : (calls.map slotOf).min? with
    | none => exact absurd (List.min?_eq_none_iff.mp hmm) hne
    | some m => exact ⟨m, rfl⟩
  obtain ⟨M, hM⟩ : ∃ M, (calls.map slotOf).max? = some M := by
    cases hmm : (calls.map slotOf).max? with
    | none => exact absurd (List.max?_eq_none_iff.mp hmm) hne
    | some M => exact ⟨M, rfl⟩
  have hmmem : m ∈ calls.map slotOf :=
    List.min?_mem (fun a b => min_choice a b) hm
  have hMmem : M ∈ calls.map slotOf :=
    List.max?_mem (fun a b => max_choice a b) hM
  have hdm : 5 ∣ m := by
    obtain ⟨c, _, hc⟩ := List.mem_map.mp hmmem
    exact hc ▸ Dvd.intro _ rfl
  have hdM : 5 ∣ M := by
    obtain ⟨c, _, hc⟩ := List.mem_map.mp hMmem
    exact hc ▸ Dvd.intro _ rfl
  have hmM : m ≤ M :=
    (List.le_min?_iff (fun a b c => le_min_iff) hm).mp (le_refl m) M hMmem
  have hb : build_5min_series calls =
      (List.range' m ((M - m) / 5 + 1) 5).map
        (fun s => (s, ((groupCounts calls).lookup s).getD 0)) := by
    simp only [build_5min_series, hm, hM]
  refine ⟨m, M, hm, hM, ?_, ?_, ?_, ?_, ?_⟩
  · simp [hb]
  · intro i hi
    have hi2 : i < (List.range' m ((M - m) / 5 + 1) 5).length := by
      simpa [hb] using hi
    simp [hb, List.getElem_map, List.getElem_range']
  · omega
  · intro p hp
    rw [hb] at hp
    obtain ⟨s, hs, hps⟩ := List.mem_map.mp hp
    rw [← hps]
    simpa using lookup_groupCounts calls s
  · intro p hp hno
    rw [hb] at hp
    obtain ⟨s, hs, hps⟩ := List.mem_map.mp hp
    rw [← hps]
    simp only []
    rw [lookup_groupCounts calls s]
    rw [List.countP_eq_zero]
    intro a ha
    have := hno a ha
    rw [← hps] at this
    simpa using this

/-- C7 (witness): calls at minutes 0 and 11 produce the series
`[(0, 1), (5, 0), (10, 1)]` — contiguous slots 0, 5, 10 with the empty
slot 5 carrying count 0. -/
theorem C7_witness :
    ∃ m M, (([0, 11] : List ℕ).map slotOf).min? = some m ∧
      (([0, 11] : List ℕ).map slotOf).max? = some M ∧
      (build_5min_series [0, 11]).length = (M - m) / 5 + 1 ∧
      (∀ i, ∀ hi : i < (build_5min_series [0, 11]).length,
        ((build_5min_series [0, 11])[i]).1 = m + 5 * i) ∧
      m + 5 * ((M - m) / 5) = M ∧
      (∀ p ∈ build_5min_series [0, 11],
        p.2 = ([0, 11] : List ℕ).countP (fun c => slotOf c = p.1)) ∧
      (∀ p ∈ build_5min_series [0, 11],
        (∀ c ∈ ([0, 11] : List ℕ), slotOf c ≠ p.1) → p.2 = 0) :=
  C7_series_contiguous [0, 11] (by simp)

/-- Sum of a constant function over a list. -/
lemma sum_map_const_of_eq {α : Type} (l : List α) (f : α → ℚ) (c : ℚ)
    (h : ∀ x ∈ l, f x = c) : (l.map f).sum = l.length * c := by
  induction l with
  | nil => simp
  | cons a t ih =>
    simp only [List.map_cons, List.sum_cons, List.length_cons]
    rw [h a (by simp), ih (fun x hx => h x (List.mem_cons_of_mem a hx))]
    push_cast
    ring

/-- Distributing a subtracted constant out of a list sum. -/
lemma sum_map_sub_const {α : Type} (l : List α) (f : α → ℚ) (c : ℚ) :
    (l.map (fun x => f x - c)).sum = (l.map f).sum - l.length * c := by
  induction l with
  | nil => simp
  | cons a t ih =>
    simp only [List.map_cons, List.sum_cons, List.length_cons, ih]
    push_cast
    ring

/-- The residuals of a non-empty `(w, tau)` group sum to zero, because the
baseline is that group's arithmetic mean. -/
lemma sum_residual_group (slots : List SeriesSlot) (w tau : ℕ)
    (hne : slots.filter (fun s => s.w = w ∧ s.tau = tau) ≠ []) :
    ((slots.filter (fun s => s.w = w ∧ s.tau = tau)).map
      (fun s => (s.count : ℚ) - muBaseline slots w tau)).sum = 0 := by
  set G := slots.filter (fun s => s.w = w ∧ s.tau = tau) with hG
  have hlen : G.length ≠ 0 := by
    simpa [List.length_eq_zero] using hne
  have hlenQ : (G.length : ℚ) ≠ 0 := by exact_mod_cast hlen
  have hmu : muBaseline slots w tau =
      (G.map (fun s => (s.count : ℚ))).sum / G.length := by
    simp only [muBaseline, ← hG, List.length_map]
    rw [if_neg hlen]
  rw [sum_map_sub_const, hmu]
  field_simp

/-- If all regime-`r` residuals are equal, each of them is zero: a slot's
`(w, tau)` group consists of regime-`r` slots only, its residuals sum to
zero, and they all share the common value. -/
lemma residual_const_zero (slots : List SeriesSlot) (r : ℕ)
    (H : ∀ s1 ∈ slots, ∀ s2 ∈ slots, s1.w = r → s2.w = r →
      residual slots s1 = residual slots s2)
    (s0 : SeriesSlot) (hs0 : s0 ∈ slots) (hw : s0.w = r) :
    residual slots s0 = 0 := by
  set G := slots.filter (fun s => s.w = s0.w ∧ s.tau = s0.tau) with hG
  have hs0G : s0 ∈ G := by
    rw [hG]
    exact List.mem_filter.mpr ⟨hs0, by simp⟩
  have hne : G ≠ [] := List.ne_nil_of_mem hs0G
  have hconst : ∀ g ∈ G, ((g.count : ℚ) - muBaseline slots s0.w s0.tau) =
      residual slots s0 := by
    intro g hg
    obtain ⟨hgs, hgp⟩ := List.mem_filter.mp hg
    have hgw : g.w = s0.w := by simpa using (of_decide_eq_true hgp).1
    have hgt : g.tau = s0.tau := by simpa using (of_decide_eq_true hgp).2
    have : residual slots g = (g.count : ℚ) - muBaseline slots s0.w s0.tau := by
      unfold residual
      rw [hgw, hgt]
    rw [← this]
    exact H g hgs s0 hs0 (hgw.trans hw) hw
  have hsum := sum_residual_group slots s0.w s0.tau (by rw [← hG]; exact hne)
  rw [← hG] at hsum
  rw [sum_map_const_of_eq G _ (residual slots s0) hconst] at hsum
  have hlen : G.length ≠ 0 := by simpa [List.length_eq_zero] using hne
  have hlenQ : (G.length : ℚ) ≠ 0 := by exact_mod_cast hlen
  exact (mul_eq_zero.mp hsum).resolve_left hlenQ

/-- C6: whenever all residuals of regime `r` are identical, the fitted
AR(1) coefficient of that regime is 0, and the least-squares division is
never taken with a zero denominator (either there is no same-regime pair,
or the guarded denominator is 0 and the division branch is skipped). -/
theorem C6_phi_zero_on_const_residuals (slots : List SeriesSlot) (r : ℕ)
    (H : ∀ s1 ∈ slots, ∀ s2 ∈ slots, s1.w = r → s2.w = r →
      residual slots s1 = residual slots s2) :
    phiEstimate slots r = 0 ∧
      (regimePairs slots r = [] ∨
        ((regimePairs slots r).map
          (fun p => residual slots p.1 * residual slots p.1)).sum = 0) := by
  by_cases hps : regimePairs slots r = []
  · refine ⟨?_, Or.inl hps⟩
    unfold phiEstimate
    simp [hps]
  · have hdenom : ((regimePairs slots r).map
        (fun p => residual slots p.1 * residual slots p.1)).sum = 0 := by
      apply List.sum_eq_zero
      intro x hx
      obtain ⟨p, hp, hpx⟩ := List.mem_map.mp hx
      obtain ⟨hpz, hppred⟩ := List.mem_filter.mp hp
      have h1 : p.1 ∈ slots := (List.of_mem_zip hpz).1
      have hw1 : p.1.w = r := by simpa using (of_decide_eq_true hppred).1
      have hres : residual slots p.1 = 0 :=
        residual_const_zero slots r H p.1 h1 hw1
      rw [← hpx, hres]
      ring
    refine ⟨?_, Or.inr hdenom⟩
    unfold phiEstimate
    have hlen : ¬ (regimePairs slots r).length = 0 := by
      simpa [List.length_eq_zero] using hps
    simp [hlen, hdenom]

/-- C6 (witness): a training series whose regime-1 residuals are all equal
(the two weekday slots share `(w, tau)` and count, so both residuals are
0); the fitted coefficient is 0. -/
theorem C6_witness :
    phiEstimate [⟨3, 1, 0⟩, ⟨3, 1, 0⟩, ⟨4, 0, 1⟩] 1 = 0 ∧
      (regimePairs [⟨3, 1, 0⟩, ⟨3, 1, 0⟩, ⟨4, 0, 1⟩] 1 = [] ∨
        ((regimePairs [⟨3, 1, 0⟩, ⟨3, 1, 0⟩, ⟨4, 0, 1⟩] 1).map
          (fun p => residual [⟨3, 1, 0⟩, ⟨3, 1, 0⟩, ⟨4, 0, 1⟩] p.1 *
            residual [⟨3, 1, 0⟩, ⟨3, 1, 0⟩, ⟨4, 0, 1⟩] p.1)).sum = 0) :=
  C6_phi_zero_on_const_residuals [⟨3, 1, 0⟩, ⟨3, 1, 0⟩, ⟨4, 0, 1⟩] 1 (by
    intro s1 h1 s2 h2 hw1 hw2
    fin_cases h1 <;> fin_cases h2 <;> simp_all)

/-- Every template proportion lies between 1/20 and 7/10, over the six
named templates and the default. -/
lemma template_bounds (state : String) (z : Zone) :
    1/20 ≤ template state z ∧ template state z ≤ 7/10 := by
  unfold template
  split_ifs <;> cases z <;> exact ⟨by norm_num, by norm_num⟩

/-- Every adjusted (pre-normalization) proportion is positive: the
intensity adjustments never drive a share below
`1/20 - (1/20) * (7/10) > 0`. -/
lemma adjRaw_pos (state : String) (y : ℚ) (z : Zone) : 0 < adjRaw state y z := by
  have h1 := (template_bounds state z).1
  have h2 := (template_bounds state z).2
  have hp1 := (template_bounds state (primaryZone (template state))).1
  have hp2 := (template_bounds state (primaryZone (template state))).2
  unfold adjRaw
  split_ifs <;> linarith

/-- The adjusted proportions have positive total. -/
lemma adjRaw_sum_pos (state : String) (y : ℚ) : 0 < zoneSumQ (adjRaw state y) := by
  have h1 := adjRaw_pos state y lobbyZ
  have h2 := adjRaw_pos state y midZ
  have h3 := adjRaw_pos state y upperZ
  unfold zoneSumQ
  linarith

/-- Normalized proportions are nonnegative. -/
lemma props_nonneg (state : String) (y : ℚ) (z : Zone) :
    0 ≤ proportions_from_state state y z := by
  unfold proportions_from_state
  exact div_nonneg (le_of_lt (adjRaw_pos state y z)) (le_of_lt (adjRaw_sum_pos state y))

/-- Normalized proportions sum to 1. -/
lemma props_sum_one (state : String) (y : ℚ) :
    proportions_from_state state y lobbyZ + proportions_from_state state y midZ +
      proportions_from_state state y upperZ = 1 := by
  have hT : zoneSumQ (adjRaw state y) ≠ 0 := ne_of_gt (adjRaw_sum_pos state y)
  unfold proportions_from_state
  rw [div_add_div_same, div_add_div_same]
  rw [show adjRaw state y lobbyZ + adjRaw state y midZ + adjRaw state y upperZ =
    zoneSumQ (adjRaw state y) from rfl]
  exact div_self hT

/-- `int()` of a nonnegative rational is its floor. -/
lemma ratTrunc_of_nonneg {x : ℚ} (h : 0 ≤ x) : ratTrunc x = ⌊x⌋ := if_pos h

/-- The floored allocations undershoot by less than one each, so between
zero and two cars remain to distribute. -/
lemma cdaRemaining_bounds (state : String) (y : ℚ) (n : ℕ) :
    0 ≤ cdaRemaining state y n ∧ cdaRemaining state y n ≤ 2 := by
  have hraw : ∀ z, 0 ≤ cdaRaw state y n z := fun z =>
    mul_nonneg (props_nonneg state y z) (Nat.cast_nonneg n)
  have hfl : ∀ z, cdaFloored state y n z = ⌊cdaRaw state y n z⌋ := fun z =>
    ratTrunc_of_nonneg (hraw z)
  have hle : ∀ z, ((cdaFloored state y n z : ℤ) : ℚ) ≤ cdaRaw state y n z := by
    intro z
    rw [hfl z]
    exact Int.floor_le _
  have hgt : ∀ z, cdaRaw state y n z - 1 < ((cdaFloored state y n z : ℤ) : ℚ) := by
    intro z
    rw [hfl z]
    exact Int.sub_one_lt_floor _
  have hsumraw : cdaRaw state y n lobbyZ + cdaRaw state y n midZ +
      cdaRaw state y n upperZ = n := by
    unfold cdaRaw
    have := props_sum_one state y
    nlinarith [this]
  constructor
  · have hq : ((cdaFloored state y n lobbyZ + cdaFloored state y n midZ +
        cdaFloored state y n upperZ : ℤ) : ℚ) ≤ (n : ℚ) := by
      push_cast
      linarith [hle lobbyZ, hle midZ, hle upperZ]
    unfold cdaRemaining
    have : cdaFloored state y n lobbyZ + cdaFloored state y n midZ +
        cdaFloored state y n upperZ ≤ (n : ℤ) := by exact_mod_cast hq
    omega
  · have hq : (n : ℚ) - 3 < ((cdaFloored state y n lobbyZ + cdaFloored state y n midZ +
        cdaFloored state y n upperZ : ℤ) : ℚ) := by
      push_cast
      linarith [hgt lobbyZ, hgt midZ, hgt upperZ]
    unfold cdaRemaining
    have : (n : ℤ) - 3 < cdaFloored state y n lobbyZ + cdaFloored state y n midZ +
        cdaFloored state y n upperZ := by exact_mod_cast hq
    omega

/-- The length of `sortedFracs` is always 3 (one entry per zone). -/
lemma sortedFracs_length (raw : Zone → ℚ) (fl : Zone → ℤ) :
    (sortedFracs raw fl).length = 3 := by
  unfold sortedFracs
  rw [List.length_mergeSort]
  simp [zonesList]

/-- The distributed-extras list contains each zone at most once. -/
lemma cdaGive_nodup (state : String) (y : ℚ) (n : ℕ) :
    (cdaGive state y n).Nodup := by
  unfold cdaGive
  rw [List.map_take]
  apply List.Nodup.sublist (List.take_sublist _ _)
  have hperm : List.Perm
      ((sortedFracs (cdaRaw state y n) (cdaFloored state y n)).map Prod.fst)
      ((zonesList.map (fun z => (z, cdaRaw state y n z -
        ((cdaFloored state y n z : ℤ) : ℚ)))).map Prod.fst) :=
    (List.mergeSort_perm _ _).map Prod.fst
  refine hperm.nodup_iff.mpr ?_
  simp [zonesList]

/-- The length of the distributed-extras list is exactly `remaining`. -/
lemma cdaGive_length (state : String) (y : ℚ) (n : ℕ) :
    (cdaGive state y n).length = (cdaRemaining state y n).toNat := by
  have h2 := (cdaRemaining_bounds state y n).2
  unfold cdaGive
  rw [List.length_map, List.length_take, sortedFracs_length]
  omega

/-- Indicator sum over the three zones counts the length of a
duplicate-free zone list. -/
lemma zone_indicator_sum (l : List Zone) (hl : l.Nodup) :
    ((if lobbyZ ∈ l then (1 : ℤ) else 0) + (if midZ ∈ l then 1 else 0) +
      (if upperZ ∈ l then 1 else 0)) = l.length := by
  induction l with
  | nil => simp
  | cons a t ih =>
    have hat : a ∉ t := (List.nodup_cons.mp hl).1
    have ht : t.Nodup := (List.nodup_cons.mp hl).2
    have iht := ih ht
    cases a with
    | lobbyZ =>
      simp [List.mem_cons, hat] at iht ⊢
      omega
    | midZ =>
      simp [List.mem_cons, hat] at iht ⊢
      omega
    | upperZ =>
      simp [List.mem_cons, hat] at iht ⊢
      omega

/-- C1 (part a): `compute_desired_allocation` sums to the fleet size, for
every state, predicted intensity and fleet size. -/
lemma cda_sum (state : String) (y : ℚ) (n : ℕ) :
    compute_desired_allocation state y n lobbyZ +
      compute_desired_allocation state y n midZ +
      compute_desired_allocation state y n upperZ = (n : ℤ) := by
  have hb := cdaRemaining_bounds state y n
  have hlen := cdaGive_length state y n
  have hind := zone_indicator_sum (cdaGive state y n) (cdaGive_nodup state y n)
  unfold compute_desired_allocation
  have hkey : ((if lobbyZ ∈ cdaGive state y n then (1 : ℤ) else 0) +
      (if midZ ∈ cdaGive state y n then 1 else 0) +
      (if upperZ ∈ cdaGive state y n then 1 else 0)) =
      ((cdaRemaining state y n).toNat : ℤ) := by
    rw [hind, hlen]
  unfold cdaRemaining at hb hkey
  omega

/-- Incrementing one zone raises the zone sum by one. -/
lemma zoneSum_update_succ (alloc : Zone → ℕ) (i : Zone) :
    zoneSum (fun z => if z = i then alloc z + 1 else alloc z) = zoneSum alloc + 1 := by
  cases i <;> simp [zoneSum] <;> omega

/-- The `while alloc.sum() < k` loop reaches sum exactly `k` whenever it
starts at or below `k` with enough fuel: each pass adds one car. -/
lemma allocLoop_sum (props : Zone → ℚ) (k : ℕ) :
    ∀ (fuel : ℕ) (alloc : Zone → ℕ), zoneSum alloc ≤ k →
      k ≤ zoneSum alloc + fuel →
      zoneSum (allocLoop props k fuel alloc) = k := by
  intro fuel
  induction fuel with
  | zero =>
    intro alloc h1 h2
    unfold allocLoop
    omega
  | succ fuel ih =>
    intro alloc h1 h2
    unfold allocLoop
    by_cases hlt : zoneSum alloc < k
    · rw [if_pos hlt]
      have hupd := zoneSum_update_succ alloc
        (argmaxZone (fun z => props z - (alloc z : ℚ) / ((max 1 k : ℕ) : ℚ)))
      refine ih _ ?_ ?_
      · rw [hupd]; omega
      · rw [hupd]; omega
    · rw [if_neg hlt]
      omega

/-- C1 (part b): with a non-empty call history, `parking_zone` produces
exactly `k` target floors. -/
lemma parking_zone_nonempty_len (hf : List ℤ) (hne : hf ≠ []) (k : ℕ)
    (lm mm fmin fmax : ℤ) :
    (parking_zone hf k lm mm fmin fmax).length = k := by
  have htotpos : 0 < zoneSum (pzCounts hf lm mm) := by
    unfold pzCounts
    by_cases h0 : zoneSum (histZoneCounts hf lm mm) = 0
    · rw [if_pos h0]
      simp [zoneSum]
    · rw [if_neg h0]
      omega
  have htotQ : (0 : ℚ) < ((zoneSum (pzCounts hf lm mm) : ℕ) : ℚ) := by
    exact_mod_cast htotpos
  have hpnn : ∀ z, 0 ≤ pzProps hf lm mm z := by
    intro z
    unfold pzProps
    exact div_nonneg (Nat.cast_nonneg _) (le_of_lt htotQ)
  have hpsum : pzProps hf lm mm lobbyZ + pzProps hf lm mm midZ +
      pzProps hf lm mm upperZ = 1 := by
    unfold pzProps
    have hcast : (pzCounts hf lm mm lobbyZ : ℚ) + pzCounts hf lm mm midZ +
        pzCounts hf lm mm upperZ = ((zoneSum (pzCounts hf lm mm) : ℕ) : ℚ) := by
      push_cast [zoneSum]
      ring
    field_simp
    linarith [hcast]
  have hx : ∀ z, (((⌊pzProps hf lm mm z * k⌋).toNat : ℕ) : ℚ) ≤
      pzProps hf lm mm z * k := by
    intro z
    have hnn : 0 ≤ pzProps hf lm mm z * k :=
      mul_nonneg (hpnn z) (Nat.cast_nonneg k)
    have htn := Int.toNat_of_nonneg (Int.floor_nonneg.mpr hnn)
    have hfl : ((⌊pzProps hf lm mm z * k⌋ : ℤ) : ℚ) ≤ pzProps hf lm mm z * k :=
      Int.floor_le _
    calc (((⌊pzProps hf lm mm z * k⌋).toNat : ℕ) : ℚ)
        = ((⌊pzProps hf lm mm z * k⌋ : ℤ) : ℚ) := by exact_mod_cast htn
      _ ≤ pzProps hf lm mm z * k := hfl
  have hsum0 : zoneSum (fun z => (⌊pzProps hf lm mm z * k⌋).toNat) ≤ k := by
    have hq : ((zoneSum (fun z => (⌊pzProps hf lm mm z * k⌋).toNat) : ℕ) : ℚ) ≤
        (k : ℚ) := by
      push_cast [zoneSum]
      have h1 := hx lobbyZ
      have h2 := hx midZ
      have h3 := hx upperZ
      have hs : pzProps hf lm mm lobbyZ * k + pzProps hf lm mm midZ * k +
          pzProps hf lm mm upperZ * k = k := by nlinarith [hpsum]
      push_cast at h1 h2 h3
      linarith
    exact_mod_cast hq
  have hloop : zoneSum (pzAlloc hf k lm mm) = k := by
    unfold pzAlloc
    exact allocLoop_sum (pzProps hf lm mm) k k _ hsum0 (by omega)
  unfold parking_zone
  rw [if_neg hne]
  simp only [List.length_append, List.length_replicate]
  unfold zoneSum at hloop
  omega

/-- C1 (part c): with an empty call history, the fallback allocation has
exactly `k` targets for every fleet size `k ≥ 2`
(`ceil(k/2) + ceil(3k/10) ≤ k` holds from 2 upward). -/
lemma parking_zone_empty_len (k : ℕ) (hk : 2 ≤ k) (lm mm fmin fmax : ℤ) :
    (parking_zone [] k lm mm fmin fmax).length = k := by
  simp only [parking_zone, if_pos, List.length_append, List.length_replicate]
  rcases Nat.lt_or_ge k 7 with hk7 | hk7
  · interval_cases k <;> decide
  · have h1 : 2 * ((k + 1) / 2) ≤ k + 1 := by omega
    have h2 : 10 * ((3 * k + 9) / 10) ≤ 3 * k + 9 := by omega
    have h3 : (k + 1) / 2 + (3 * k + 9) / 10 ≤ k := by omega
    omega

/-- C1 (amended): the zone/proportional allocations produce plans of
exactly the fleet size — `compute_desired_allocation` for every state,
intensity and fleet size; `parking_zone` for every non-empty history and
every `k`, and for empty history whenever `k ≥ 2` (at `k = 1` with empty
history the fallback produces 2 targets, see the counterexample). -/
theorem C1_plan_size_amended (state : String) (y_hat : ℚ) (n : ℕ)
    (hf : List ℤ) (k k2 : ℕ) (lm mm fmin fmax : ℤ)
    (hne : hf ≠ []) (hk2 : 2 ≤ k2) :
    (compute_desired_allocation state y_hat n lobbyZ +
      compute_desired_allocation state y_hat n midZ +
      compute_desired_allocation state y_hat n upperZ = (n : ℤ)) ∧
    (parking_zone hf k lm mm fmin fmax).length = k ∧
    (parking_zone [] k2 lm mm fmin fmax).length = k2 :=
  ⟨cda_sum state y_hat n, parking_zone_nonempty_len hf hne k lm mm fmin fmax,
    parking_zone_empty_len k2 hk2 lm mm fmin fmax⟩

/-- C1 (witness): instantiated at a concrete state, history and fleet
sizes. -/
theorem C1_witness :
    (compute_desired_allocation "Night Idle" 5 8 lobbyZ +
      compute_desired_allocation "Night Idle" 5 8 midZ +
      compute_desired_allocation "Night Idle" 5 8 upperZ = (8 : ℤ)) ∧
    (parking_zone [2, 5, 9, 9] 5 3 8 1 12).length = 5 ∧
    (parking_zone [] 2 3 8 1 12).length = 2 :=
  C1_plan_size_amended "Night Idle" 5 8 [2, 5, 9, 9] 5 2 3 8 1 12
    (by simp) (by omega)

end ElevatorSim
